import Mathlib

/-!
Shallow embedding of the Brute_File_classifier repository, covering the
scan-classify-index pipeline and the hybrid search engine.

Sources embedded:
- file_classifier.py: keyword_search, semantic_search, search_files,
  scan_files, classify_file_with_llm (single-attempt variant)
- qt_file_classifier.py: classify_file_with_llm (retry loop)
- run_file_classifier.py: fixed_classify_file_with_llm (retry loop with
  re-raise on final Timeout/ConnectionError)
- parallel_scanner.py: sentinel broadcast in parallel_scan_files
- simple_unified_app.py: sentinel broadcast (blocking variant)

Machine floats in the sources are modelled as rationals; the embedding
cosine-similarity kernel and the external embedder are abstracted as
function parameters, since the claims only concern thresholding, ordering,
truncation and merging of such scores.
-/

/-- One record of the file database (Python dict value in
file_classifier.py scan_files). -/
structure FileRecord where
  path : String
  name : String
  size_mb : ℚ
  classification : String
  summary : String
  keywords : List String
  scan_timestamp : ℚ
deriving Repr, DecidableEq

/-- The parsed classifier reply: classification, summary, keywords. -/
structure ClassificationResult where
  classification : String
  summary : String
  keywords : List String
deriving Repr, DecidableEq

/-- Python substring containment on character lists:
needle occurs contiguously inside the haystack. -/
def subOccurs (needle : List Char) : List Char → Bool
  | [] => needle.isEmpty
  | c :: cs => needle.isPrefixOf (c :: cs) || subOccurs needle cs

/-- Python operator in on strings: the first string occurs in the second. -/
def pyIn (needle hay : String) : Bool :=
  subOccurs needle.toList hay.toList

/-- Python str.lower, modelled per character (kernel-evaluable, unlike
String.toLower whose mapAux recursion is well-founded). -/
def pyLower (s : String) : String :=
  ⟨s.toList.map Char.toLower⟩

/-- Python str.strip with no arguments: drop leading and trailing
whitespace. -/
def pyStrip (s : String) : String :=
  ⟨((s.toList.dropWhile Char.isWhitespace).reverse.dropWhile
      Char.isWhitespace).reverse⟩

/-- Insert one element into a list already sorted descending by key,
placing it before the first strictly smaller key, after equal keys
(matching the stability of Python sorted with reverse=True). -/
def insertDescBy (key : α → ℚ) (x : α) : List α → List α
  | [] => [x]
  | y :: ys => if key y ≤ key x then x :: y :: ys else y :: insertDescBy key x ys

/-- Stable sort descending by a rational key, modelling Python
list.sort(key=..., reverse=True). -/
def sortDescBy (key : α → ℚ) : List α → List α
  | [] => []
  | x :: xs => insertDescBy key x (sortDescBy key xs)

theorem insertDescBy_perm (key : α → ℚ) (x : α) (l : List α) :
    (insertDescBy key x l).Perm (x :: l) := by
  induction l with
  | nil => simp [insertDescBy]
  | cons y ys ih =>
    simp only [insertDescBy]
    split
    · exact List.Perm.refl _
    · exact ((ih.cons y).trans (List.Perm.swap x y ys))

theorem sortDescBy_perm (key : α → ℚ) (l : List α) :
    (sortDescBy key l).Perm l := by
  induction l with
  | nil => simp [sortDescBy]
  | cons x xs ih =>
    exact (insertDescBy_perm key x (sortDescBy key xs)).trans (ih.cons x)

theorem insertDescBy_pairwise (key : α → ℚ) (x : α) (l : List α)
    (h : l.Pairwise (fun a b => key b ≤ key a)) :
    (insertDescBy key x l).Pairwise (fun a b => key b ≤ key a) := by
  induction l with
  | nil => simp [insertDescBy]
  | cons y ys ih =>
    rw [List.pairwise_cons] at h
    obtain ⟨hy, hys⟩ := h
    simp only [insertDescBy]
    split
    · rename_i hyx
      rw [List.pairwise_cons]
      refine ⟨?_, List.pairwise_cons.mpr ⟨hy, hys⟩⟩
      intro b hb
      rcases List.mem_cons.mp hb with hb | hb
      · exact hb ▸ hyx
      · exact le_trans (hy b hb) hyx
    · rename_i hyx
      rw [List.pairwise_cons]
      refine ⟨?_, ih hys⟩
      intro b hb
      have hb2 : b ∈ x :: ys := (insertDescBy_perm key x ys).mem_iff.mp hb
      rcases List.mem_cons.mp hb2 with hb3 | hb3
      · exact hb3 ▸ le_of_lt (lt_of_not_le hyx)
      · exact hy b hb3

theorem sortDescBy_pairwise (key : α → ℚ) (l : List α) :
    (sortDescBy key l).Pairwise (fun a b => key b ≤ key a) := by
  induction l with
  | nil => simp [sortDescBy]
  | cons x xs ih => exact insertDescBy_pairwise key x _ ih

example : pyIn "abc" "xxabcy" = true := by decide
example : pyIn "abd" "xxabcy" = false := by decide
example : pyStrip "  ab c  " = "ab c" := by decide
example : sortDescBy (fun x => x) [1, 3, 2, 3] = [3, 3, 2, 1] := by decide

attribute [local semireducible] Rat.add Rat.mul Rat.inv Rat.sub Rat.ofScientific in
example : ((3 : ℚ)/10 + 3/10) = 3/5 := by decide

/-! ## Keyword search (file_classifier.py, keyword_search) -/

/-- The keyword loop of keyword_search: for each stored keyword, if the
lowered query occurs in the lowered keyword, add 0.2 and break. -/
def keywordLoopScore (q : String) (score : ℚ) : List String → ℚ
  | [] => score
  | k :: ks =>
    if pyIn q (pyLower k) then score + 2/10 else keywordLoopScore q score ks

/-- The per-record score accumulation of keyword_search in
file_classifier.py (the query has already been lowered by the caller). -/
def keywordScore (q : String) (item : FileRecord) : ℚ :=
  let s1 : ℚ := if pyIn q (pyLower item.name) then 0 + 3/10 else 0
  let s2 : ℚ := if pyIn q (pyLower item.classification) then s1 + 2/10 else s1
  let s3 : ℚ := if pyIn q (pyLower item.summary) then s2 + 3/10 else s2
  keywordLoopScore q s3 item.keywords

/-- keyword_search from file_classifier.py: lower the query, score every
record, keep strictly positive scores, sort descending by score. -/
def keyword_search (query : String) (items : List FileRecord) :
    List (FileRecord × ℚ) :=
  let q := pyLower query
  sortDescBy (fun p => p.2)
    (items.filterMap (fun item =>
      let score := keywordScore q item
      if 0 < score then some (item, score) else none))

/-- The keyword score as the spec words it: a sum of four independent
components, the keyword component counted once when any stored keyword
matches. -/
def keywordScoreSpec (q : String) (item : FileRecord) : ℚ :=
  (if pyIn q (pyLower item.name) then 3/10 else 0)
    + (if pyIn q (pyLower item.classification) then 2/10 else 0)
    + (if pyIn q (pyLower item.summary) then 3/10 else 0)
    + (if item.keywords.any (fun k => pyIn q (pyLower k)) then 2/10 else 0)

theorem keywordLoopScore_eq (q : String) (s : ℚ) (ks : List String) :
    keywordLoopScore q s ks
      = s + (if ks.any (fun k => pyIn q (pyLower k)) then 2/10 else 0) := by
  induction ks with
  | nil => simp [keywordLoopScore]
  | cons k ks ih =>
    simp only [keywordLoopScore, List.any_cons]
    by_cases h : pyIn q (pyLower k) = true
    · simp [h]
    · simp [h, ih]

theorem keywordScore_eq_spec (q : String) (item : FileRecord) :
    keywordScore q item = keywordScoreSpec q item := by
  simp only [keywordScore, keywordScoreSpec, keywordLoopScore_eq]
  split_ifs <;> ring

/-- C6: for every query and record, the keyword score is the sum of
exactly the four components (+0.3 name, +0.2 classification, +0.3 summary,
+0.2 for at least one keyword match, counted once) under case-insensitive
substring containment; zero-score records are excluded, and results come
back in descending score order. -/
theorem keyword_search_score_components (query : String)
    (items : List FileRecord) :
    (∀ p ∈ keyword_search query items,
        p.2 = keywordScoreSpec (pyLower query) p.1 ∧ 0 < p.2)
    ∧ (∀ item ∈ items, 0 < keywordScoreSpec (pyLower query) item →
        (item, keywordScoreSpec (pyLower query) item)
          ∈ keyword_search query items)
    ∧ (keyword_search query items).Pairwise (fun a b => b.2 ≤ a.2) := by
  have hunfold : keyword_search query items
      = sortDescBy (fun p => p.2)
        (items.filterMap (fun item =>
          if 0 < keywordScore (pyLower query) item
          then some (item, keywordScore (pyLower query) item) else none)) :=
    rfl
  refine ⟨?_, ?_, ?_⟩
  · intro p hp
    rw [hunfold] at hp
    have hp2 := (sortDescBy_perm (fun p : FileRecord × ℚ => p.2) _).mem_iff.mp hp
    obtain ⟨a, _, ha2⟩ := List.mem_filterMap.mp hp2
    split at ha2
    · rename_i hpos
      cases ha2
      exact ⟨keywordScore_eq_spec _ _, (keywordScore_eq_spec _ _) ▸ hpos⟩
    · cases ha2
  · intro item hitem hpos
    rw [hunfold]
    refine (sortDescBy_perm (fun p : FileRecord × ℚ => p.2) _).mem_iff.mpr
      (List.mem_filterMap.mpr ⟨item, hitem, ?_⟩)
    simp only [keywordScore_eq_spec]
    rw [if_pos hpos]
  · rw [hunfold]
    exact sortDescBy_pairwise _ _

/-- Fixture from the spec scenario: invoice_march.txt. -/
def sampleInvoiceA : FileRecord :=
  ⟨"C:/docs/invoice_march.txt", "invoice_march.txt", 1, "Text document",
    "Monthly invoice report", ["finance"], 0⟩

/-- Fixture from the spec scenario: notes.txt, which must score zero. -/
def sampleNotesB : FileRecord :=
  ⟨"C:/docs/notes.txt", "notes.txt", 1, "Text document", "random notes",
    [], 0⟩

attribute [local semireducible] Rat.add Rat.mul Rat.inv Rat.sub in
/-- Witness for C6 at the spec fixture: querying invoice over the two
sample records puts invoice_march.txt in the keyword results with score
0.3 + 0.3 = 0.6. -/
theorem keyword_search_score_components_witness :
    sampleInvoiceA ∈ [sampleInvoiceA, sampleNotesB]
    ∧ 0 < keywordScoreSpec (pyLower "invoice") sampleInvoiceA
    ∧ (sampleInvoiceA,
        keywordScoreSpec (pyLower "invoice") sampleInvoiceA)
        ∈ keyword_search "invoice" [sampleInvoiceA, sampleNotesB]
    ∧ keywordScoreSpec (pyLower "invoice") sampleInvoiceA = 3/5 :=
  ⟨by decide, by decide,
    (keyword_search_score_components "invoice"
        [sampleInvoiceA, sampleNotesB]).2.1 sampleInvoiceA
      (by decide) (by decide),
    by decide⟩

/-! ## Semantic search and hybrid merge (file_classifier.py) -/

/-- semantic_search from file_classifier.py, with the external embedder
and the numpy cosine kernel abstracted as parameters embed and cos:
records with an empty summary or a failed embedding are skipped, the
candidates are sorted descending by similarity, and only the first top_k
(default 20) survive. If the query itself cannot be embedded the result
is empty. -/
def semantic_search (embed : String → Option (List ℚ))
    (cos : List ℚ → List ℚ → ℚ) (query : String) (items : List FileRecord)
    (top_k : ℕ := 20) : List (FileRecord × ℚ) :=
  match embed query with
  | none => []
  | some qe =>
    (sortDescBy (fun p : FileRecord × ℚ => p.2)
      (items.filterMap (fun item =>
        if item.summary = "" then none
        else
          match embed item.summary with
          | none => none
          | some se => some (item, cos qe se)))).take top_k

/-- The keyword pass of the merge in search_files: add keyword results in
order, skipping paths already seen, tagging each entry keyword. -/
def addKeywordResults :
    List (FileRecord × ℚ) → List String → List (FileRecord × ℚ × String) →
      List String × List (FileRecord × ℚ × String)
  | [], seen, acc => (seen, acc)
  | (item, score) :: rest, seen, acc =>
    if seen.contains item.path then addKeywordResults rest seen acc
    else
      addKeywordResults rest (item.path :: seen)
        (acc ++ [(item, score, "keyword")])

/-- The semantic pass of the merge in search_files: add semantic results
for paths not yet seen whose similarity is strictly above 0.5, tagging
each entry semantic. -/
def addSemanticResults :
    List (FileRecord × ℚ) → List String → List (FileRecord × ℚ × String) →
      List String × List (FileRecord × ℚ × String)
  | [], seen, acc => (seen, acc)
  | (item, score) :: rest, seen, acc =>
    if !(seen.contains item.path) && decide ((1 : ℚ)/2 < score) then
      addSemanticResults rest (item.path :: seen)
        (acc ++ [(item, score, "semantic")])
    else addSemanticResults rest seen acc

/-- search_files from file_classifier.py: queries that are empty after
stripping yield no results; otherwise keyword results are merged first,
then semantic results above the 0.5 threshold for unseen paths, and the
combined list is sorted descending by score one final time. -/
def search_files (embed : String → Option (List ℚ))
    (cos : List ℚ → List ℚ → ℚ) (query : String) (db : List FileRecord) :
    List (FileRecord × ℚ × String) :=
  if pyStrip query = "" then []
  else
    let keyword_results := keyword_search query db
    let semantic_results := semantic_search embed cos query db
    let s1 := addKeywordResults keyword_results [] []
    let s2 := addSemanticResults semantic_results s1.1 s1.2
    sortDescBy (fun t : FileRecord × ℚ × String => t.2.1) s2.2

/-- The hybrid merge as the spec words it: all keyword results tagged
keyword, then the semantic results whose path is not among the keyword
result paths and whose similarity exceeds 0.5 tagged semantic, the whole
list finally sorted descending by score. -/
def searchMergeSpec (embed : String → Option (List ℚ))
    (cos : List ℚ → List ℚ → ℚ) (query : String) (db : List FileRecord) :
    List (FileRecord × ℚ × String) :=
  let kw := keyword_search query db
  let kwPaths := kw.map (fun p => p.1.path)
  let sem := (semantic_search embed cos query db).filter
    (fun p => !(kwPaths.contains p.1.path) && decide ((1 : ℚ)/2 < p.2))
  sortDescBy (fun t : FileRecord × ℚ × String => t.2.1)
    (kw.map (fun p => (p.1, p.2, "keyword"))
      ++ sem.map (fun p => (p.1, p.2, "semantic")))

theorem contains_iff_mem (l : List String) (x : String) :
    l.contains x = true ↔ x ∈ l := by
  simp [List.contains]

theorem contains_reverse (l : List String) (x : String) :
    l.reverse.contains x = l.contains x := by
  simp [List.contains]

theorem filterMap_fst_sublist (f : α → Option (α × β)) (l : List α)
    (hf : ∀ a p, f a = some p → p.1 = a) :
    ((l.filterMap f).map Prod.fst).Sublist l := by
  induction l with
  | nil => simp
  | cons a as ih =>
    rw [List.filterMap_cons]
    cases hfa : f a with
    | none => exact ih.cons a
    | some p =>
      rw [List.map_cons, hf a p hfa]
      exact ih.cons₂ a

theorem filterMap_paths_nodup (f : FileRecord → Option (FileRecord × ℚ))
    (db : List FileRecord) (hf : ∀ a p, f a = some p → p.1 = a)
    (hdb : (db.map FileRecord.path).Nodup) :
    ((db.filterMap f).map (fun p => p.1.path)).Nodup := by
  have h1 := ((filterMap_fst_sublist f db hf).map FileRecord.path).nodup hdb
  rw [List.map_map] at h1
  exact h1

theorem sortDescBy_paths_nodup (l : List (FileRecord × ℚ))
    (h : (l.map (fun p => p.1.path)).Nodup) :
    ((sortDescBy (fun p : FileRecord × ℚ => p.2) l).map
      (fun p => p.1.path)).Nodup := by
  rw [((sortDescBy_perm (fun p : FileRecord × ℚ => p.2) l).map
    (fun p : FileRecord × ℚ => p.1.path)).nodup_iff]
  exact h

theorem take_paths_nodup (n : ℕ) (l : List (FileRecord × ℚ))
    (h : (l.map (fun p => p.1.path)).Nodup) :
    ((l.take n).map (fun p => p.1.path)).Nodup :=
  ((List.take_sublist n l).map (fun p : FileRecord × ℚ => p.1.path)).nodup h

theorem keyword_search_paths_nodup (query : String) (db : List FileRecord)
    (hdb : (db.map FileRecord.path).Nodup) :
    ((keyword_search query db).map (fun p => p.1.path)).Nodup := by
  have hunfold : keyword_search query db
      = sortDescBy (fun p : FileRecord × ℚ => p.2)
        (db.filterMap (fun item =>
          if 0 < keywordScore (pyLower query) item
          then some (item, keywordScore (pyLower query) item) else none)) :=
    rfl
  rw [hunfold]
  refine sortDescBy_paths_nodup _ (filterMap_paths_nodup _ db ?_ hdb)
  intro a p hp
  split at hp
  · cases hp; rfl
  · cases hp

theorem semantic_search_paths_nodup (embed : String → Option (List ℚ))
    (cos : List ℚ → List ℚ → ℚ) (query : String) (db : List FileRecord)
    (hdb : (db.map FileRecord.path).Nodup) :
    ((semantic_search embed cos query db).map
      (fun p => p.1.path)).Nodup := by
  unfold semantic_search
  cases hq : embed query with
  | none => simp
  | some qe =>
    simp only
    refine take_paths_nodup _ _
      (sortDescBy_paths_nodup _ (filterMap_paths_nodup _ db ?_ hdb))
    intro a p hp
    split at hp
    · cases hp
    · split at hp
      · cases hp
      · cases hp; rfl

theorem addKeywordResults_eq (kw : List (FileRecord × ℚ))
    (seen : List String) (acc : List (FileRecord × ℚ × String))
    (hnodup : (kw.map (fun p => p.1.path)).Nodup)
    (hdisj : ∀ p ∈ kw, p.1.path ∉ seen) :
    addKeywordResults kw seen acc
      = ((kw.map (fun p => p.1.path)).reverse ++ seen,
         acc ++ kw.map (fun p => (p.1, p.2, "keyword"))) := by
  induction kw generalizing seen acc with
  | nil => simp [addKeywordResults]
  | cons hd tl ih =>
    obtain ⟨item, score⟩ := hd
    simp only [addKeywordResults]
    rw [List.map_cons, List.nodup_cons] at hnodup
    obtain ⟨hhd, htl⟩ := hnodup
    have hcond : ¬(seen.contains item.path = true) := fun hc =>
      hdisj (item, score) (List.mem_cons_self _ _)
        ((contains_iff_mem _ _).mp hc)
    rw [if_neg hcond]
    rw [ih (item.path :: seen) (acc ++ [(item, score, "keyword")]) htl ?_]
    · simp
    · intro p hp hmem
      rcases List.mem_cons.mp hmem with h1 | h1
      · exact hhd (h1 ▸ List.mem_map_of_mem (fun p => p.1.path) hp)
      · exact hdisj p (List.mem_cons_of_mem _ hp) h1

theorem addSemanticResults_snd (sem : List (FileRecord × ℚ))
    (seen : List String) (acc : List (FileRecord × ℚ × String))
    (hnodup : (sem.map (fun p => p.1.path)).Nodup) :
    (addSemanticResults sem seen acc).2
      = acc ++ (sem.filter (fun p =>
          !(seen.contains p.1.path) && decide ((1 : ℚ)/2 < p.2))).map
          (fun p => (p.1, p.2, "semantic")) := by
  induction sem generalizing seen acc with
  | nil => simp [addSemanticResults]
  | cons hd tl ih =>
    obtain ⟨item, score⟩ := hd
    simp only [addSemanticResults]
    rw [List.map_cons, List.nodup_cons] at hnodup
    obtain ⟨hhd, htl⟩ := hnodup
    by_cases hcond :
        (!(seen.contains item.path) && decide ((1 : ℚ)/2 < score)) = true
    · rw [if_pos hcond]
      rw [ih (item.path :: seen) (acc ++ [(item, score, "semantic")]) htl]
      have hfilt : tl.filter (fun p =>
            !((item.path :: seen).contains p.1.path)
              && decide ((1 : ℚ)/2 < p.2))
          = tl.filter (fun p =>
            !(seen.contains p.1.path) && decide ((1 : ℚ)/2 < p.2)) := by
        refine List.filter_congr ?_
        intro p hp
        have hne2 : p.1.path ≠ item.path := fun he =>
          hhd (he ▸ List.mem_map_of_mem (fun p => p.1.path) hp)
        simp [List.contains_cons, hne2]
      rw [hfilt]
      have hhead : List.filter (fun p =>
            !(seen.contains p.1.path) && decide ((1 : ℚ)/2 < p.2))
            ((item, score) :: tl)
          = (item, score) :: List.filter (fun p =>
            !(seen.contains p.1.path) && decide ((1 : ℚ)/2 < p.2)) tl := by
        simp only [List.filter_cons, hcond, if_pos]
      rw [hhead]
      simp
    · rw [if_neg hcond]
      rw [ih seen acc htl]
      have hhead : List.filter (fun p =>
            !(seen.contains p.1.path) && decide ((1 : ℚ)/2 < p.2))
            ((item, score) :: tl)
          = List.filter (fun p =>
            !(seen.contains p.1.path) && decide ((1 : ℚ)/2 < p.2)) tl := by
        rw [Bool.not_eq_true] at hcond
        simp only [List.filter_cons, hcond]
        rfl
      rw [hhead]

/-- C1: for every nonblank query and database snapshot with distinct
paths, the hybrid result list is exactly the keyword results tagged
keyword followed by the semantic results for unseen paths with similarity
strictly above 0.5 tagged semantic, sorted descending by score one final
time; every path appears at most once in the output, and the output is in
descending score order. -/
theorem search_files_merge (embed : String → Option (List ℚ))
    (cos : List ℚ → List ℚ → ℚ) (query : String) (db : List FileRecord)
    (hq : ¬ pyStrip query = "")
    (hdb : (db.map FileRecord.path).Nodup) :
    search_files embed cos query db = searchMergeSpec embed cos query db
    ∧ ((search_files embed cos query db).map (fun t => t.1.path)).Nodup
    ∧ (search_files embed cos query db).Pairwise
        (fun a b => b.2.1 ≤ a.2.1) := by
  have hkwnd := keyword_search_paths_nodup query db hdb
  have hsemnd := semantic_search_paths_nodup embed cos query db hdb
  have hkw := addKeywordResults_eq (keyword_search query db) [] [] hkwnd
    (by intro p hp; simp)
  rw [List.append_nil, List.nil_append] at hkw
  have hsem := addSemanticResults_snd (semantic_search embed cos query db)
    ((keyword_search query db).map (fun p => p.1.path)).reverse
    ((keyword_search query db).map (fun p => (p.1, p.2, "keyword"))) hsemnd
  have hfcong : (semantic_search embed cos query db).filter (fun p =>
        !((((keyword_search query db).map
            (fun p => p.1.path)).reverse).contains p.1.path)
          && decide ((1 : ℚ)/2 < p.2))
      = (semantic_search embed cos query db).filter (fun p =>
        !(((keyword_search query db).map
            (fun p => p.1.path)).contains p.1.path)
          && decide ((1 : ℚ)/2 < p.2)) := by
    refine List.filter_congr ?_
    intro p hp
    rw [contains_reverse]
  have hmain : search_files embed cos query db
      = sortDescBy (fun t : FileRecord × ℚ × String => t.2.1)
        ((keyword_search query db).map (fun p => (p.1, p.2, "keyword"))
          ++ ((semantic_search embed cos query db).filter (fun p =>
            !(((keyword_search query db).map
                (fun p => p.1.path)).contains p.1.path)
              && decide ((1 : ℚ)/2 < p.2))).map
            (fun p => (p.1, p.2, "semantic"))) := by
    unfold search_files
    rw [if_neg hq]
    simp only
    rw [hkw]
    simp only
    rw [hsem, hfcong]
  have hspecu : searchMergeSpec embed cos query db
      = sortDescBy (fun t : FileRecord × ℚ × String => t.2.1)
        ((keyword_search query db).map (fun p => (p.1, p.2, "keyword"))
          ++ ((semantic_search embed cos query db).filter (fun p =>
            !(((keyword_search query db).map
                (fun p => p.1.path)).contains p.1.path)
              && decide ((1 : ℚ)/2 < p.2))).map
            (fun p => (p.1, p.2, "semantic"))) := rfl
  refine ⟨by rw [hmain, hspecu], ?_, ?_⟩
  · rw [hmain]
    rw [((sortDescBy_perm (fun t : FileRecord × ℚ × String => t.2.1) _).map
      (fun t : FileRecord × ℚ × String => t.1.path)).nodup_iff]
    rw [List.map_append, List.map_map, List.map_map]
    rw [List.nodup_append]
    refine ⟨hkwnd, ?_, ?_⟩
    · exact ((List.filter_sublist _).map
        (fun p : FileRecord × ℚ => p.1.path)).nodup hsemnd
    · intro a ha hb
      obtain ⟨p, hpmem, hpa⟩ := List.mem_map.mp hb
      obtain ⟨hpsem, hpcond⟩ := List.mem_filter.mp hpmem
      obtain ⟨hnc, _⟩ := (Bool.and_eq_true _ _).mp hpcond
      rw [Bool.not_eq_eq_eq_not, Bool.not_true] at hnc
      have hpa2 : p.1.path = a := hpa
      have : p.1.path ∈ (keyword_search query db).map (fun p => p.1.path) := by
        have ha2 : a ∈ (keyword_search query db).map (fun p => p.1.path) := ha
        exact hpa2 ▸ ha2
      rw [← contains_iff_mem] at this
      rw [this] at hnc
      cases hnc
  · rw [hmain]
    exact sortDescBy_pairwise _ _

/-- Embedder fixture: only the summary of notes.txt gets a distinguished
vector. -/
def wEmbed : String → Option (List ℚ) := fun s =>
  some [if s == "random notes" then 1 else 0]

/-- Cosine fixture: similarity 0.7 for the distinguished vector, 0.4
otherwise. -/
def wCos : List ℚ → List ℚ → ℚ := fun _ se =>
  if se == [(1 : ℚ)] then 7/10 else 2/5

attribute [local semireducible] Rat.add Rat.mul Rat.inv Rat.sub in
/-- Witness for C1 on the two-record fixture: the query is nonblank and
the paths are distinct, so the merge theorem applies. -/
theorem search_files_merge_witness :
    (¬ pyStrip "invoice" = "")
    ∧ ([sampleInvoiceA, sampleNotesB].map FileRecord.path).Nodup
    ∧ search_files wEmbed wCos "invoice" [sampleInvoiceA, sampleNotesB]
        = searchMergeSpec wEmbed wCos "invoice" [sampleInvoiceA, sampleNotesB]
    ∧ ((search_files wEmbed wCos "invoice"
        [sampleInvoiceA, sampleNotesB]).map (fun t => t.1.path)).Nodup
    ∧ (search_files wEmbed wCos "invoice"
        [sampleInvoiceA, sampleNotesB]).Pairwise
        (fun a b => b.2.1 ≤ a.2.1) :=
  ⟨by decide, by decide,
    search_files_merge wEmbed wCos "invoice" [sampleInvoiceA, sampleNotesB]
      (by decide) (by decide)⟩

/-- Truncation fixture: 21 records whose summaries all embed with
similarity 0.7. -/
def hotRecord (i : ℕ) : FileRecord :=
  ⟨"p" ++ toString i, "hotfile", 1, "doc", "hot", [], 0⟩

/-- Truncation fixture: the record whose summary has similarity 0.6,
above the threshold yet crowded out of the top 20. -/
def warmRecord : FileRecord :=
  ⟨"x", "warmfile", 1, "doc", "warm", [], 0⟩

/-- The 22-record database for the truncation scenario. -/
def truncDb : List FileRecord := (List.range 21).map hotRecord ++ [warmRecord]

/-- Embedder fixture for the truncation scenario. -/
def truncEmbed : String → Option (List ℚ) := fun s =>
  if s == "hot" then some [7/10]
  else if s == "warm" then some [3/5]
  else some [0]

/-- Cosine fixture for the truncation scenario: read the similarity off
the candidate embedding. -/
def truncCos : List ℚ → List ℚ → ℚ := fun _ se => se.headD 0

attribute [local semireducible] Rat.add Rat.mul Rat.inv Rat.sub in
/-- C9: semantic_search sorts by similarity and truncates to its top_k
parameter (default 20) before the merge applies the 0.5 threshold, so a
record with similarity 0.6 is absent from the hybrid results when 21
records score 0.7. -/
theorem semantic_search_truncates_top20 :
    (∀ (embed : String → Option (List ℚ)) (cos : List ℚ → List ℚ → ℚ)
        (query : String) (items : List FileRecord),
      (semantic_search embed cos query items).length ≤ 20)
    ∧ truncEmbed "warm" = some [(3 : ℚ)/5]
    ∧ (1 : ℚ)/2 < truncCos [0] [(3 : ℚ)/5]
    ∧ warmRecord ∈ truncDb
    ∧ warmRecord.summary = "warm"
    ∧ (∀ t ∈ search_files truncEmbed truncCos "zzz" truncDb,
        t.1.path ≠ warmRecord.path) := by
  refine ⟨?_, by decide, by decide, by decide, rfl, by decide⟩
  intro embed cos query items
  unfold semantic_search
  cases embed query with
  | none => simp
  | some qe =>
    simp only
    rw [List.length_take]
    exact min_le_left _ _

attribute [local semireducible] Rat.add Rat.mul Rat.inv Rat.sub in
/-- Witness for C9: the truncation and membership facts instantiated on
the fixture database. -/
theorem semantic_search_truncates_top20_witness :
    (semantic_search truncEmbed truncCos "zzz" truncDb).length ≤ 20
    ∧ (hotRecord 0, (7 : ℚ)/10, "semantic")
        ∈ search_files truncEmbed truncCos "zzz" truncDb
    ∧ (hotRecord 0, (7 : ℚ)/10, "semantic").1.path ≠ warmRecord.path :=
  ⟨semantic_search_truncates_top20.1 truncEmbed truncCos "zzz" truncDb,
    by decide,
    semantic_search_truncates_top20.2.2.2.2.2
      (hotRecord 0, (7 : ℚ)/10, "semantic") (by decide)⟩

/-! ## The sequential scan (file_classifier.py, scan_files) -/

/-- A candidate file as the walker sees it after directory and extension
exclusion: path, basename, size in MB, on-disk modification time, and the
text preview get_file_preview would produce for it. -/
structure ScanFile where
  path : String
  name : String
  size_mb : ℚ
  mtime : ℚ
  preview : String
deriving Repr, DecidableEq

/-- The Python dict file_database: association list keyed by path;
inserting an existing key overwrites in place. -/
abbrev DataBase := List (String × FileRecord)

/-- Dict lookup. -/
def dbLookup : DataBase → String → Option FileRecord
  | [], _ => none
  | (q, r) :: rest, p => if q = p then some r else dbLookup rest p

/-- Dict store: overwrite in place, or append a new key. -/
def dbInsert : DataBase → String → FileRecord → DataBase
  | [], p, r => [(p, r)]
  | (q, s) :: rest, p, r =>
    if q = p then (p, r) :: rest else (q, s) :: dbInsert rest p r

/-- The state threaded through one scan: the in-memory database, the
snapshot last written by save_database, the processed counter, the paths
handed to get_file_preview, and the paths handed to the classifier. -/
structure ScanState where
  db : DataBase
  savedDb : DataBase
  processed : ℕ
  previewed : List String
  invoked : List String
deriving Repr, DecidableEq

/-- The record scan_files stores for an oversize file. -/
def largeFileRecord (f : ScanFile) (now : ℚ) : FileRecord :=
  ⟨f.path, f.name, f.size_mb, "Large File",
    "File too large to process (" ++ toString f.size_mb ++ " MB)",
    ["large_file"], now⟩

/-- The record scan_files stores after a classifier reply. -/
def classifiedRecord (f : ScanFile) (c : ClassificationResult) (now : ℚ) :
    FileRecord :=
  ⟨f.path, f.name, f.size_mb, c.classification, c.summary, c.keywords, now⟩

/-- One iteration of the file loop of scan_files: skip if a record exists
whose scan_timestamp is at least the mtime; otherwise store a Large File
record synchronously when the size exceeds the limit; otherwise preview,
classify, store, and save the database when processed is a multiple of
100 (checked before the increment, as in the Python finally block). -/
def scanFileStep (maxSize : ℚ)
    (classify : String → String → ClassificationResult) (now : ℚ)
    (st : ScanState) (f : ScanFile) : ScanState :=
  let fresh :=
    match dbLookup st.db f.path with
    | some info => decide (f.mtime ≤ info.scan_timestamp)
    | none => false
  if fresh then { st with processed := st.processed + 1 }
  else if maxSize < f.size_mb then
    { st with
        db := dbInsert st.db f.path (largeFileRecord f now),
        processed := st.processed + 1 }
  else
    let c := classify f.path f.preview
    let db2 := dbInsert st.db f.path (classifiedRecord f c now)
    { db := db2,
      savedDb := if st.processed % 100 == 0 then db2 else st.savedDb,
      processed := st.processed + 1,
      previewed := st.previewed ++ [f.path],
      invoked := st.invoked ++ [f.path] }

/-- The file loop of scan_files with cooperative cancellation: before
each file the scanning_active flag is polled (active i is what the flag
reads before handling the i-th file); a cleared flag makes the scan
return at once, skipping the final save; on normal completion
save_database runs unconditionally. -/
def scanFilesGo (maxSize : ℚ)
    (classify : String → String → ClassificationResult) (now : ℚ)
    (active : ℕ → Bool) : List ScanFile → ScanState → ScanState
  | [], st => { st with savedDb := st.db }
  | f :: fs, st =>
    if active st.processed then
      scanFilesGo maxSize classify now active fs
        (scanFileStep maxSize classify now st f)
    else st

/-- scan_files from file_classifier.py over the enumerated candidate
files, starting from a loaded database and its last persisted snapshot. -/
def scan_files (maxSize : ℚ)
    (classify : String → String → ClassificationResult) (now : ℚ)
    (active : ℕ → Bool) (files : List ScanFile)
    (db0 saved0 : DataBase) : ScanState :=
  scanFilesGo maxSize classify now active files ⟨db0, saved0, 0, [], []⟩

/-- The same loop without cancellation and without the final save: the
pure fold of scanFileStep. -/
def runSteps (maxSize : ℚ)
    (classify : String → String → ClassificationResult) (now : ℚ) :
    List ScanFile → ScanState → ScanState
  | [], st => st
  | f :: fs, st => runSteps maxSize classify now fs
      (scanFileStep maxSize classify now st f)

theorem dbLookup_insert_self (db : DataBase) (p : String) (r : FileRecord) :
    dbLookup (dbInsert db p r) p = some r := by
  induction db with
  | nil => simp [dbInsert, dbLookup]
  | cons hd tl ih =>
    obtain ⟨q, s⟩ := hd
    simp only [dbInsert]
    by_cases h : q = p
    · rw [if_pos h]
      simp [dbLookup]
    · rw [if_neg h]
      simp only [dbLookup]
      rw [if_neg h]
      exact ih

theorem dbLookup_insert_ne (db : DataBase) (p q : String) (r : FileRecord)
    (h : p ≠ q) : dbLookup (dbInsert db p r) q = dbLookup db q := by
  induction db with
  | nil => simp [dbInsert, dbLookup, h]
  | cons hd tl ih =>
    obtain ⟨k, s⟩ := hd
    simp only [dbInsert]
    by_cases hk : k = p
    · rw [if_pos hk]
      simp only [dbLookup]
      rw [if_neg h, if_neg (hk ▸ h : ¬ k = q)]
    · rw [if_neg hk]
      simp only [dbLookup]
      by_cases hq : k = q
      · rw [if_pos hq, if_pos hq]
      · rw [if_neg hq, if_neg hq]
        exact ih

theorem scanFileStep_path_ne (maxSize : ℚ)
    (classify : String → String → ClassificationResult) (now : ℚ)
    (st : ScanState) (g : ScanFile) (p : String) (h : g.path ≠ p) :
    dbLookup (scanFileStep maxSize classify now st g).db p
        = dbLookup st.db p
    ∧ (scanFileStep maxSize classify now st g).invoked.count p
        = st.invoked.count p
    ∧ (scanFileStep maxSize classify now st g).previewed.count p
        = st.previewed.count p := by
  have hsing : ∀ l : List String, (l ++ [g.path]).count p = l.count p := by
    intro l
    rw [List.count_append]
    have : [g.path].count p = 0 := by
      rw [List.count_eq_zero]
      intro hc
      exact h (List.mem_singleton.mp hc).symm
    omega
  simp only [scanFileStep]
  split
  · exact ⟨rfl, rfl, rfl⟩
  · split
    · exact ⟨dbLookup_insert_ne _ _ _ _ h, rfl, rfl⟩
    · exact ⟨dbLookup_insert_ne _ _ _ _ h, hsing _, hsing _⟩

theorem scanFilesGo_paths_ne (maxSize : ℚ)
    (classify : String → String → ClassificationResult) (now : ℚ)
    (active : ℕ → Bool) (files : List ScanFile) (st : ScanState)
    (p : String) (h : ∀ f ∈ files, f.path ≠ p) :
    dbLookup (scanFilesGo maxSize classify now active files st).db p
        = dbLookup st.db p
    ∧ (scanFilesGo maxSize classify now active files st).invoked.count p
        = st.invoked.count p
    ∧ (scanFilesGo maxSize classify now active files st).previewed.count p
        = st.previewed.count p := by
  induction files generalizing st with
  | nil => exact ⟨rfl, rfl, rfl⟩
  | cons g gs ih =>
    simp only [scanFilesGo]
    split
    · have hstep := scanFileStep_path_ne maxSize classify now st g p
        (h g (List.mem_cons_self _ _))
      have hrest := ih (scanFileStep maxSize classify now st g)
        (fun f hf => h f (List.mem_cons_of_mem _ hf))
      exact ⟨hrest.1.trans hstep.1, hrest.2.1.trans hstep.2.1,
        hrest.2.2.trans hstep.2.2⟩
    · exact ⟨rfl, rfl, rfl⟩

theorem scanFileStep_fresh (maxSize : ℚ)
    (classify : String → String → ClassificationResult) (now : ℚ)
    (st : ScanState) (f : ScanFile) (r : FileRecord)
    (hr : dbLookup st.db f.path = some r) (hts : f.mtime ≤ r.scan_timestamp) :
    scanFileStep maxSize classify now st f
      = { st with processed := st.processed + 1 } := by
  simp only [scanFileStep, hr]
  rw [if_pos]
  exact decide_eq_true hts

theorem scanFilesGo_skips_fresh (maxSize : ℚ)
    (classify : String → String → ClassificationResult) (now : ℚ)
    (active : ℕ → Bool) (files : List ScanFile) (st : ScanState)
    (f : ScanFile) (r : FileRecord) (hmem : f ∈ files)
    (hnodup : (files.map ScanFile.path).Nodup)
    (hr : dbLookup st.db f.path = some r)
    (hts : f.mtime ≤ r.scan_timestamp) :
    dbLookup (scanFilesGo maxSize classify now active files st).db f.path
        = some r
    ∧ (scanFilesGo maxSize classify now active files st).invoked.count
        f.path = st.invoked.count f.path
    ∧ (scanFilesGo maxSize classify now active files st).previewed.count
        f.path = st.previewed.count f.path := by
  induction files generalizing st with
  | nil => cases hmem
  | cons g gs ih =>
    rw [List.map_cons, List.nodup_cons] at hnodup
    obtain ⟨hhd, htl⟩ := hnodup
    simp only [scanFilesGo]
    split
    · rcases List.mem_cons.mp hmem with hfg | hfg
      · subst hfg
        rw [scanFileStep_fresh maxSize classify now st f r hr hts]
        have hrest := scanFilesGo_paths_ne maxSize classify now active gs
          { st with processed := st.processed + 1 } f.path
          (fun g hg hgp => hhd (hgp ▸ List.mem_map_of_mem ScanFile.path hg))
        exact ⟨hrest.1.trans hr, hrest.2.1, hrest.2.2⟩
      · have hne : g.path ≠ f.path := fun he =>
          hhd (he ▸ List.mem_map_of_mem ScanFile.path hfg)
        have hstep := scanFileStep_path_ne maxSize classify now st g f.path hne
        have hr2 : dbLookup (scanFileStep maxSize classify now st g).db f.path
            = some r := hstep.1.trans hr
        have hrec := ih _ hfg htl hr2
        exact ⟨hrec.1, hrec.2.1.trans hstep.2.1, hrec.2.2.trans hstep.2.2⟩
    · exact ⟨hr, rfl, rfl⟩

theorem scanFilesGo_all_fresh (maxSize : ℚ)
    (classify : String → String → ClassificationResult) (now : ℚ)
    (active : ℕ → Bool) (files : List ScanFile) (st : ScanState)
    (hfresh : ∀ f ∈ files, ∃ r, dbLookup st.db f.path = some r
      ∧ f.mtime ≤ r.scan_timestamp) :
    (scanFilesGo maxSize classify now active files st).invoked = st.invoked
    ∧ (scanFilesGo maxSize classify now active files st).db = st.db
    ∧ (scanFilesGo maxSize classify now active files st).previewed
        = st.previewed := by
  induction files generalizing st with
  | nil => exact ⟨rfl, rfl, rfl⟩
  | cons g gs ih =>
    simp only [scanFilesGo]
    split
    · obtain ⟨r, hr, hts⟩ := hfresh g (List.mem_cons_self _ _)
      rw [scanFileStep_fresh maxSize classify now st g r hr hts]
      exact ih { st with processed := st.processed + 1 }
        (fun f hf => hfresh f (List.mem_cons_of_mem _ hf))
    · exact ⟨rfl, rfl, rfl⟩

theorem scanFilesGo_new_small (maxSize : ℚ)
    (classify : String → String → ClassificationResult) (now : ℚ)
    (files : List ScanFile) (st : ScanState)
    (hnodup : (files.map ScanFile.path).Nodup)
    (hnew : ∀ f ∈ files, dbLookup st.db f.path = none)
    (hsmall : ∀ f ∈ files, f.size_mb ≤ maxSize) :
    (scanFilesGo maxSize classify now (fun _ => true) files st).invoked
        = st.invoked ++ files.map ScanFile.path
    ∧ ∀ f ∈ files,
        dbLookup (scanFilesGo maxSize classify now
            (fun _ => true) files st).db f.path
          = some (classifiedRecord f (classify f.path f.preview) now) := by
  induction files generalizing st with
  | nil => exact ⟨by simp [scanFilesGo], by simp⟩
  | cons g gs ih =>
    rw [List.map_cons, List.nodup_cons] at hnodup
    obtain ⟨hhd, htl⟩ := hnodup
    simp only [scanFilesGo, if_pos]
    have hdb : (scanFileStep maxSize classify now st g).db
        = dbInsert st.db g.path
            (classifiedRecord g (classify g.path g.preview) now) := by
      simp only [scanFileStep, hnew g (List.mem_cons_self _ _)]
      rw [if_neg (by simp),
        if_neg (not_lt.mpr (hsmall g (List.mem_cons_self _ _)))]
    have hinv : (scanFileStep maxSize classify now st g).invoked
        = st.invoked ++ [g.path] := by
      simp only [scanFileStep, hnew g (List.mem_cons_self _ _)]
      rw [if_neg (by simp),
        if_neg (not_lt.mpr (hsmall g (List.mem_cons_self _ _)))]
    have hrec := ih (scanFileStep maxSize classify now st g) htl
      (fun f hf => by
        have hne : g.path ≠ f.path := fun he =>
          hhd (he ▸ List.mem_map_of_mem ScanFile.path hf)
        rw [hdb, dbLookup_insert_ne _ _ _ _ hne]
        exact hnew f (List.mem_cons_of_mem _ hf))
      (fun f hf => hsmall f (List.mem_cons_of_mem _ hf))
    refine ⟨?_, ?_⟩
    · rw [hrec.1, hinv]
      simp
    · intro f hf
      rcases List.mem_cons.mp hf with hfg | hfg
      · subst hfg
        have hrest := scanFilesGo_paths_ne maxSize classify now
          (fun _ => true) gs (scanFileStep maxSize classify now st f) f.path
          (fun g2 hg2 hgp => hhd (hgp ▸ List.mem_map_of_mem ScanFile.path hg2))
        rw [hrest.1, hdb]
        exact dbLookup_insert_self _ _ _
      · exact hrec.2 f hfg

/-- C2: a file already in the database whose on-disk mtime is at most the
stored scan timestamp is skipped by a later scan — no classifier call,
record unchanged; consequently scanning twice over unchanged small files
classifies each file exactly once, the second run invoking the classifier
not at all. -/
theorem scan_freshness_idempotent :
    (∀ (maxSize : ℚ) (classify : String → String → ClassificationResult)
        (now : ℚ) (active : ℕ → Bool) (files : List ScanFile)
        (db0 saved0 : DataBase) (f : ScanFile) (r : FileRecord),
      f ∈ files → (files.map ScanFile.path).Nodup →
      dbLookup db0 f.path = some r → f.mtime ≤ r.scan_timestamp →
      f.path ∉ (scan_files maxSize classify now active files
          db0 saved0).invoked
      ∧ dbLookup (scan_files maxSize classify now active files
          db0 saved0).db f.path = some r)
    ∧ (∀ (maxSize : ℚ) (classify : String → String → ClassificationResult)
        (now1 now2 : ℚ) (files : List ScanFile),
      (files.map ScanFile.path).Nodup →
      (∀ f ∈ files, f.size_mb ≤ maxSize) →
      (∀ f ∈ files, f.mtime ≤ now1) →
      (∀ f ∈ files,
        (scan_files maxSize classify now1 (fun _ => true) files
            [] []).invoked.count f.path = 1)
      ∧ (scan_files maxSize classify now2 (fun _ => true) files
          (scan_files maxSize classify now1 (fun _ => true) files
            [] []).db
          (scan_files maxSize classify now1 (fun _ => true) files
            [] []).savedDb).invoked = []) := by
  constructor
  · intro maxSize classify now active files db0 saved0 f r hmem hnodup hr hts
    have h := scanFilesGo_skips_fresh maxSize classify now active files
      ⟨db0, saved0, 0, [], []⟩ f r hmem hnodup hr hts
    refine ⟨?_, h.1⟩
    rw [← List.count_eq_zero]
    exact h.2.1
  · intro maxSize classify now1 now2 files hnodup hsmall hmt
    have h1 := scanFilesGo_new_small maxSize classify now1 files
      ⟨[], [], 0, [], []⟩ hnodup (fun f _ => rfl) hsmall
    constructor
    · intro f hf
      have : (scan_files maxSize classify now1 (fun _ => true) files
          [] []).invoked = files.map ScanFile.path := by
        have := h1.1
        simpa [scan_files] using this
      rw [this]
      exact List.count_eq_one_of_mem hnodup
        (List.mem_map_of_mem ScanFile.path hf)
    · have h2 := scanFilesGo_all_fresh maxSize classify now2 (fun _ => true)
        files ⟨(scan_files maxSize classify now1 (fun _ => true) files
            [] []).db,
          (scan_files maxSize classify now1 (fun _ => true) files
            [] []).savedDb, 0, [], []⟩
        (fun f hf => ⟨classifiedRecord f (classify f.path f.preview) now1,
          h1.2 f hf, hmt f hf⟩)
      exact h2.1

/-- Fixture file: a.txt. -/
def cFile1 : ScanFile := ⟨"a.txt", "a.txt", 1, 5, "alpha"⟩

/-- Fixture file: b.txt. -/
def cFile2 : ScanFile := ⟨"b.txt", "b.txt", 1, 5, "beta"⟩

/-- Fixture classifier: a constant successful reply. -/
def cClassifier : String → String → ClassificationResult :=
  fun _ _ => ⟨"Doc", "a document", ["doc"]⟩

/-- Fixture database record for a.txt, already scanned at time 10. -/
def freshRec : FileRecord := ⟨"a.txt", "a.txt", 1, "Doc", "old doc", [], 10⟩

attribute [local semireducible] Rat.add Rat.mul Rat.inv Rat.sub in
/-- Witness for C2: on two small fresh files the first run classifies
a.txt exactly once, the second run performs no classifier call at all,
and a scan over a database holding a fresh record skips the file. -/
theorem scan_freshness_idempotent_witness :
    ((scan_files 5 cClassifier 10 (fun _ => true) [cFile1, cFile2]
        [] []).invoked.count cFile1.path = 1
    ∧ (scan_files 5 cClassifier 20 (fun _ => true) [cFile1, cFile2]
        (scan_files 5 cClassifier 10 (fun _ => true) [cFile1, cFile2]
          [] []).db
        (scan_files 5 cClassifier 10 (fun _ => true) [cFile1, cFile2]
          [] []).savedDb).invoked = [])
    ∧ (cFile1.path ∉ (scan_files 5 cClassifier 30 (fun _ => true)
        [cFile1, cFile2] [("a.txt", freshRec)] []).invoked
      ∧ dbLookup (scan_files 5 cClassifier 30 (fun _ => true)
        [cFile1, cFile2] [("a.txt", freshRec)] []).db cFile1.path
        = some freshRec) :=
  ⟨⟨(scan_freshness_idempotent.2 5 cClassifier 10 20 [cFile1, cFile2]
      (by decide) (by decide) (by decide)).1 cFile1 (by decide),
    (scan_freshness_idempotent.2 5 cClassifier 10 20 [cFile1, cFile2]
      (by decide) (by decide) (by decide)).2⟩,
    scan_freshness_idempotent.1 5 cClassifier 30 (fun _ => true)
      [cFile1, cFile2] [("a.txt", freshRec)] [] cFile1 freshRec
      (by decide) (by decide) (by decide) (by decide)⟩

theorem scanFileStep_oversize (maxSize : ℚ)
    (classify : String → String → ClassificationResult) (now : ℚ)
    (st : ScanState) (f : ScanFile) (hbig : maxSize < f.size_mb) :
    (scanFileStep maxSize classify now st f).invoked = st.invoked
    ∧ (scanFileStep maxSize classify now st f).previewed = st.previewed
    ∧ (dbLookup st.db f.path = none →
        (scanFileStep maxSize classify now st f).db
          = dbInsert st.db f.path (largeFileRecord f now)) := by
  simp only [scanFileStep]
  cases h : dbLookup st.db f.path with
  | none =>
    rw [if_neg (by simp), if_pos hbig]
    exact ⟨rfl, rfl, fun _ => rfl⟩
  | some r =>
    dsimp only
    by_cases hts : f.mtime ≤ r.scan_timestamp
    · rw [if_pos (decide_eq_true hts)]
      exact ⟨rfl, rfl, fun hn => Option.noConfusion hn⟩
    · rw [if_neg (by simp [hts]), if_pos hbig]
      exact ⟨rfl, rfl, fun _ => rfl⟩

theorem scanFilesGo_oversize (maxSize : ℚ)
    (classify : String → String → ClassificationResult) (now : ℚ)
    (active : ℕ → Bool) (files : List ScanFile) (st : ScanState)
    (f : ScanFile) (hmem : f ∈ files)
    (hnodup : (files.map ScanFile.path).Nodup)
    (hbig : maxSize < f.size_mb) :
    (scanFilesGo maxSize classify now active files st).invoked.count f.path
        = st.invoked.count f.path
    ∧ (scanFilesGo maxSize classify now active files st).previewed.count
        f.path = st.previewed.count f.path
    ∧ (dbLookup st.db f.path = none → (∀ i, active i = true) →
        dbLookup (scanFilesGo maxSize classify now active files st).db
          f.path = some (largeFileRecord f now)) := by
  induction files generalizing st with
  | nil => cases hmem
  | cons g gs ih =>
    rw [List.map_cons, List.nodup_cons] at hnodup
    obtain ⟨hhd, htl⟩ := hnodup
    simp only [scanFilesGo]
    split
    · rcases List.mem_cons.mp hmem with hfg | hfg
      · subst hfg
        have hstep := scanFileStep_oversize maxSize classify now st f hbig
        have hrest := scanFilesGo_paths_ne maxSize classify now active gs
          (scanFileStep maxSize classify now st f) f.path
          (fun g2 hg2 hgp => hhd (hgp ▸ List.mem_map_of_mem ScanFile.path hg2))
        refine ⟨by rw [hrest.2.1, hstep.1], by rw [hrest.2.2, hstep.2.1], ?_⟩
        intro hnone _
        rw [hrest.1, hstep.2.2 hnone]
        exact dbLookup_insert_self _ _ _
      · have hne : g.path ≠ f.path := fun he =>
          hhd (he ▸ List.mem_map_of_mem ScanFile.path hfg)
        have hstep := scanFileStep_path_ne maxSize classify now st g f.path hne
        have hrec := ih (scanFileStep maxSize classify now st g) hfg htl
        refine ⟨hrec.1.trans hstep.2.1, hrec.2.1.trans hstep.2.2, ?_⟩
        intro hnone hact
        exact hrec.2.2 (hstep.1.trans hnone) hact
    · rename_i hact
      refine ⟨rfl, rfl, fun _ hall => ?_⟩
      rw [hall st.processed] at hact
      cases hact rfl

/-- Fixture: an oversize file whose mtime predates the stored record. -/
def bigFile : ScanFile := ⟨"big.iso", "big.iso", 10, 40, "xx"⟩

/-- Fixture: a stale-format record for big.iso scanned at time 50 with a
non Large File classification. -/
def bigOld : FileRecord :=
  ⟨"big.iso", "big.iso", 10, "Disk image", "an old image", [], 50⟩

attribute [local semireducible] Rat.add Rat.mul Rat.inv Rat.sub in
/-- Counterexample to C5 as stated: a scanned file whose size (10 MB)
exceeds the 5 MB limit but whose database record is fresh (mtime 40 at or
below scan_timestamp 50) is skipped by the freshness check, so the scan
does not store a Large File record: the old classification remains. -/
theorem oversize_fresh_counterexample :
    ((5 : ℚ) < bigFile.size_mb)
    ∧ dbLookup (scan_files 5 cClassifier 60 (fun _ => true) [bigFile]
        [("big.iso", bigOld)] []).db bigFile.path = some bigOld
    ∧ bigOld.classification ≠ "Large File" :=
  ⟨by decide, by decide, by decide⟩

/-- C5 amended: an oversize file is never previewed and never sent to the
classifier; when it is not skipped as fresh (no record for its path), the
scan stores the synthetic Large File record for it. -/
theorem oversize_shortcut_amended (maxSize : ℚ)
    (classify : String → String → ClassificationResult) (now : ℚ)
    (active : ℕ → Bool) (files : List ScanFile) (db0 saved0 : DataBase)
    (f : ScanFile) (hmem : f ∈ files)
    (hnodup : (files.map ScanFile.path).Nodup)
    (hbig : maxSize < f.size_mb) :
    (f.path ∉ (scan_files maxSize classify now active files
        db0 saved0).invoked
    ∧ f.path ∉ (scan_files maxSize classify now active files
        db0 saved0).previewed)
    ∧ (dbLookup db0 f.path = none → (∀ i, active i = true) →
        dbLookup (scan_files maxSize classify now active files
          db0 saved0).db f.path = some (largeFileRecord f now)) := by
  have h := scanFilesGo_oversize maxSize classify now active files
    ⟨db0, saved0, 0, [], []⟩ f hmem hnodup hbig
  refine ⟨⟨?_, ?_⟩, h.2.2⟩
  · rw [← List.count_eq_zero]
    exact h.1
  · rw [← List.count_eq_zero]
    exact h.2.1

attribute [local semireducible] Rat.add Rat.mul Rat.inv Rat.sub in
/-- Witness for the amended C5: scanning the oversize fixture from an
empty database stores the Large File record without any preview or
classifier call. -/
theorem oversize_shortcut_amended_witness :
    (bigFile ∈ [bigFile]
    ∧ ([bigFile].map ScanFile.path).Nodup
    ∧ (5 : ℚ) < bigFile.size_mb)
    ∧ (bigFile.path ∉ (scan_files 5 cClassifier 60 (fun _ => true)
        [bigFile] [] []).invoked
    ∧ bigFile.path ∉ (scan_files 5 cClassifier 60 (fun _ => true)
        [bigFile] [] []).previewed)
    ∧ dbLookup (scan_files 5 cClassifier 60 (fun _ => true)
        [bigFile] [] []).db bigFile.path
        = some (largeFileRecord bigFile 60) :=
  ⟨⟨by decide, by decide, by decide⟩,
    (oversize_shortcut_amended 5 cClassifier 60 (fun _ => true) [bigFile]
      [] [] bigFile (by decide) (by decide) (by decide)).1,
    (oversize_shortcut_amended 5 cClassifier 60 (fun _ => true) [bigFile]
      [] [] bigFile (by decide) (by decide) (by decide)).2
      (by decide) (fun i => rfl)⟩

theorem scanFileStep_processed (maxSize : ℚ)
    (classify : String → String → ClassificationResult) (now : ℚ)
    (st : ScanState) (f : ScanFile) :
    (scanFileStep maxSize classify now st f).processed
      = st.processed + 1 := by
  simp only [scanFileStep]
  split
  · rfl
  · split
    · rfl
    · rfl

/-- How many files the loop handles before observing a cleared flag, when
the checks start at index start and len files remain. -/
def stopCount (active : ℕ → Bool) (start : ℕ) : ℕ → ℕ
  | 0 => 0
  | len + 1 =>
    if active start then stopCount active (start + 1) len + 1 else 0

theorem scanFilesGo_complete (maxSize : ℚ)
    (classify : String → String → ClassificationResult) (now : ℚ)
    (active : ℕ → Bool) (files : List ScanFile) (st : ScanState)
    (hact : ∀ i, active i = true) :
    scanFilesGo maxSize classify now active files st
      = { runSteps maxSize classify now files st with
          savedDb := (runSteps maxSize classify now files st).db } := by
  induction files generalizing st with
  | nil => rfl
  | cons f fs ih =>
    simp only [scanFilesGo, runSteps, hact st.processed, if_pos]
    exact ih _

theorem scanFilesGo_cancel (maxSize : ℚ)
    (classify : String → String → ClassificationResult) (now : ℚ)
    (active : ℕ → Bool) (files : List ScanFile) (st : ScanState)
    (hstop : stopCount active st.processed files.length < files.length) :
    scanFilesGo maxSize classify now active files st
      = runSteps maxSize classify now
          (files.take (stopCount active st.processed files.length)) st := by
  induction files generalizing st with
  | nil => cases hstop
  | cons f fs ih =>
    simp only [List.length_cons, stopCount] at hstop ⊢
    by_cases hact : active st.processed = true
    · rw [hact, if_pos rfl] at hstop ⊢
      simp only [List.take_succ_cons, runSteps, scanFilesGo, hact, if_pos]
      have hp := scanFileStep_processed maxSize classify now st f
      have := ih (scanFileStep maxSize classify now st f)
        (by rw [hp]; omega)
      rw [this, hp]
    · rw [Bool.not_eq_true] at hact
      rw [hact] at hstop ⊢
      simp only [if_neg Bool.false_ne_true, List.take_zero, runSteps,
        scanFilesGo, hact]

/-- Fixture file: c.txt, never reached once the flag clears. -/
def cFile3 : ScanFile := ⟨"c.txt", "c.txt", 1, 5, "gamma"⟩

attribute [local semireducible] Rat.add Rat.mul Rat.inv Rat.sub in
/-- Counterexample to C8 as stated: with the cancellation flag cleared
after two files, b.txt has been merged into the in-memory database but
the persisted snapshot (written only by the periodic save after the first
file) does not contain it — scan_files returns on cancellation without a
final save_database call. -/
theorem scan_cancel_counterexample :
    dbLookup (scan_files 5 cClassifier 10 (fun i => decide (i < 2))
        [cFile1, cFile2, cFile3] [] []).db cFile2.path
      = some (classifiedRecord cFile2
          (cClassifier cFile2.path cFile2.preview) 10)
    ∧ dbLookup (scan_files 5 cClassifier 10 (fun i => decide (i < 2))
        [cFile1, cFile2, cFile3] [] []).savedDb cFile2.path = none :=
  ⟨by decide, by decide⟩

/-- C8 amended: the database snapshot is persisted unconditionally at
scan completion; when the cancellation flag clears mid-scan, the loop
stops at the next file boundary and returns the pure fold over exactly
the files already handled — the merged records are intact in memory, but
no save runs at cancellation, so only periodic saves are persisted. -/
theorem scan_persistence_amended (maxSize : ℚ)
    (classify : String → String → ClassificationResult) (now : ℚ)
    (active : ℕ → Bool) (files : List ScanFile) (db0 saved0 : DataBase) :
    ((∀ i, active i = true) →
      (scan_files maxSize classify now active files db0 saved0).savedDb
        = (scan_files maxSize classify now active files db0 saved0).db)
    ∧ (stopCount active 0 files.length < files.length →
      scan_files maxSize classify now active files db0 saved0
        = runSteps maxSize classify now
            (files.take (stopCount active 0 files.length))
            ⟨db0, saved0, 0, [], []⟩) := by
  constructor
  · intro hact
    unfold scan_files
    rw [scanFilesGo_complete maxSize classify now active files _ hact]
  · intro hstop
    unfold scan_files
    exact scanFilesGo_cancel maxSize classify now active files
      ⟨db0, saved0, 0, [], []⟩ hstop

attribute [local semireducible] Rat.add Rat.mul Rat.inv Rat.sub in
/-- Witness for the amended C8: completion persists the snapshot on a
one-file scan, and the cancelled three-file scan equals the fold over its
first two files. -/
theorem scan_persistence_amended_witness :
    ((scan_files 5 cClassifier 10 (fun _ => true) [cFile1] [] []).savedDb
      = (scan_files 5 cClassifier 10 (fun _ => true) [cFile1] [] []).db)
    ∧ stopCount (fun i => decide (i < 2)) 0
        [cFile1, cFile2, cFile3].length
        < [cFile1, cFile2, cFile3].length
    ∧ scan_files 5 cClassifier 10 (fun i => decide (i < 2))
        [cFile1, cFile2, cFile3] [] []
        = runSteps 5 cClassifier 10
            ([cFile1, cFile2, cFile3].take
              (stopCount (fun i => decide (i < 2)) 0
                [cFile1, cFile2, cFile3].length))
            ⟨[], [], 0, [], []⟩ :=
  ⟨(scan_persistence_amended 5 cClassifier 10 (fun _ => true) [cFile1]
      [] []).1 (fun i => rfl),
    by decide,
    (scan_persistence_amended 5 cClassifier 10 (fun i => decide (i < 2))
      [cFile1, cFile2, cFile3] [] []).2 (by decide)⟩

/-! ## The classifier client retry loops (qt_file_classifier.py and
run_file_classifier.py) -/

/-- The outcome of one network attempt as the retry loop sees it: a
parsed reply; a non-200 status or unparsable payload (MalformedResponse),
which falls through without an exception; a requests Timeout; a requests
ConnectionError; or any other exception carrying its message. -/
inductive AttemptOutcome where
  | success (r : ClassificationResult)
  | badResponse
  | timeout
  | connectionError
  | otherError (msg : String)
deriving Repr, DecidableEq

/-- Whether an attempt produced a parsed reply. -/
def AttemptOutcome.isSuccess : AttemptOutcome → Bool
  | .success _ => true
  | _ => false

/-- How the retry loop hands control back to its enclosing function:
an explicit return, falling off the loop (break or exhaustion), or an
uncaught exception. -/
inductive LoopExit where
  | returned (r : ClassificationResult)
  | fellThrough
  | raised (msg : String)
deriving Repr, DecidableEq

/-- The observable trace of one classifier call: the record handed back,
the number of network attempts, and the backoff waits in order. -/
structure CallResult where
  result : ClassificationResult
  attempts : ℕ
  sleeps : List ℕ
deriving Repr, DecidableEq

/-- The guard reply for a blank preview. -/
def emptyPreviewRecord : ClassificationResult :=
  ⟨"Unknown", "Empty or unreadable file", []⟩

/-- The fallback returned after the qt loop ends without a reply. -/
def qtFallback : ClassificationResult :=
  ⟨"Unknown", "Failed to classify with LLM", ["error", "classification-failed"]⟩

/-- The fallback returned after the run_file loop ends without a reply
or an exception. -/
def fixedFallback : ClassificationResult :=
  ⟨"Unknown", "Failed to classify with LLM after multiple attempts",
    ["error", "classification-failed", "timeout"]⟩

/-- The record built by the outer exception handler. -/
def errorFallback (msg : String) : ClassificationResult :=
  ⟨"Error", "Error classifying: " ++ msg, ["error"]⟩

/-- The retry loop of classify_file_with_llm in qt_file_classifier.py:
a parse or status failure falls through and, unless this was the last
attempt, waits (retry+1)*2; a Timeout is caught by its own handler with
the same wait; every other exception (ConnectionError included) lands in
the generic handler, which waits retry+1; after the last attempt every
failure breaks out to the fallback return. -/
def qtLoop (maxRetries : ℕ) :
    ℕ → List AttemptOutcome → List ℕ → LoopExit × ℕ × List ℕ
  | retry, [], sleeps => (.fellThrough, retry, sleeps)
  | retry, o :: rest, sleeps =>
    match o with
    | .success r => (.returned r, retry + 1, sleeps)
    | .badResponse =>
      if retry == maxRetries then (.fellThrough, retry + 1, sleeps)
      else qtLoop maxRetries (retry + 1) rest (sleeps ++ [(retry + 1) * 2])
    | .timeout =>
      if retry == maxRetries then (.fellThrough, retry + 1, sleeps)
      else qtLoop maxRetries (retry + 1) rest (sleeps ++ [(retry + 1) * 2])
    | .connectionError =>
      if retry == maxRetries then (.fellThrough, retry + 1, sleeps)
      else qtLoop maxRetries (retry + 1) rest (sleeps ++ [retry + 1])
    | .otherError _ =>
      if retry == maxRetries then (.fellThrough, retry + 1, sleeps)
      else qtLoop maxRetries (retry + 1) rest (sleeps ++ [retry + 1])

/-- classify_file_with_llm from qt_file_classifier.py: blank previews
short-circuit; otherwise the retry loop runs and every non-returned exit,
including an exception reaching the outer handler, ends in the same
Unknown fallback return. -/
def qtClassify (maxRetries : ℕ) (preview : String)
    (outcomes : List AttemptOutcome) : CallResult :=
  if (pyStrip preview).length == 0 then ⟨emptyPreviewRecord, 0, []⟩
  else
    match qtLoop maxRetries 0 outcomes [] with
    | (.returned r, a, s) => ⟨r, a, s⟩
    | (.fellThrough, a, s) => ⟨qtFallback, a, s⟩
    | (.raised _, a, s) => ⟨qtFallback, a, s⟩

/-- The retry loop of fixed_classify_file_with_llm in
run_file_classifier.py: parse and status failures fall through with wait
(retry+1)*2; Timeout and ConnectionError have their own handlers with the
same wait but re-raise on the last attempt; any other exception is not
caught inside the loop and propagates at once. -/
def fixedLoop (maxRetries : ℕ) :
    ℕ → List AttemptOutcome → List ℕ → LoopExit × ℕ × List ℕ
  | retry, [], sleeps => (.fellThrough, retry, sleeps)
  | retry, o :: rest, sleeps =>
    match o with
    | .success r => (.returned r, retry + 1, sleeps)
    | .badResponse =>
      if retry == maxRetries then (.fellThrough, retry + 1, sleeps)
      else fixedLoop maxRetries (retry + 1) rest
        (sleeps ++ [(retry + 1) * 2])
    | .timeout =>
      if retry == maxRetries then (.raised "timeout", retry + 1, sleeps)
      else fixedLoop maxRetries (retry + 1) rest
        (sleeps ++ [(retry + 1) * 2])
    | .connectionError =>
      if retry == maxRetries then (.raised "connection error", retry + 1, sleeps)
      else fixedLoop maxRetries (retry + 1) rest
        (sleeps ++ [(retry + 1) * 2])
    | .otherError msg => (.raised msg, retry + 1, sleeps)

/-- fixed_classify_file_with_llm from run_file_classifier.py: blank
previews short-circuit; a loop that falls through returns the Unknown
fallback; a raised exception is caught by the outer handler, which
returns the Error record — nothing propagates to the caller. -/
def fixedClassify (maxRetries : ℕ) (preview : String)
    (outcomes : List AttemptOutcome) : CallResult :=
  if (pyStrip preview).length == 0 then ⟨emptyPreviewRecord, 0, []⟩
  else
    match fixedLoop maxRetries 0 outcomes [] with
    | (.returned r, a, s) => ⟨r, a, s⟩
    | (.fellThrough, a, s) => ⟨fixedFallback, a, s⟩
    | (.raised m, a, s) => ⟨errorFallback m, a, s⟩

/-- classify_file_with_llm from file_classifier.py: a single attempt,
no retry; parse failures give the Unknown fallback, exceptions the Error
record. -/
def basicClassify (preview : String) (outcome : AttemptOutcome) :
    CallResult :=
  if (pyStrip preview).length == 0 then ⟨emptyPreviewRecord, 0, []⟩
  else
    match outcome with
    | .success r => ⟨r, 1, []⟩
    | .badResponse => ⟨qtFallback, 1, []⟩
    | .timeout => ⟨errorFallback "timeout", 1, []⟩
    | .connectionError => ⟨errorFallback "connection error", 1, []⟩
    | .otherError m => ⟨errorFallback m, 1, []⟩

theorem qtLoop_attempts_le (maxRetries : ℕ) (outcomes : List AttemptOutcome)
    (retry : ℕ) (sleeps : List ℕ) (h : retry ≤ maxRetries) :
    (qtLoop maxRetries retry outcomes sleeps).2.1 ≤ maxRetries + 1 := by
  induction outcomes generalizing retry sleeps with
  | nil => simp only [qtLoop]; omega
  | cons o rest ih =>
    cases o with
    | success r => simp only [qtLoop]; omega
    | badResponse =>
      simp only [qtLoop]
      by_cases hb : (retry == maxRetries) = true
      · rw [if_pos hb]; dsimp only; omega
      · rw [if_neg hb]
        exact ih (retry + 1) _ (by rw [beq_iff_eq] at hb; omega)
    | timeout =>
      simp only [qtLoop]
      by_cases hb : (retry == maxRetries) = true
      · rw [if_pos hb]; dsimp only; omega
      · rw [if_neg hb]
        exact ih (retry + 1) _ (by rw [beq_iff_eq] at hb; omega)
    | connectionError =>
      simp only [qtLoop]
      by_cases hb : (retry == maxRetries) = true
      · rw [if_pos hb]; dsimp only; omega
      · rw [if_neg hb]
        exact ih (retry + 1) _ (by rw [beq_iff_eq] at hb; omega)
    | otherError m =>
      simp only [qtLoop]
      by_cases hb : (retry == maxRetries) = true
      · rw [if_pos hb]; dsimp only; omega
      · rw [if_neg hb]
        exact ih (retry + 1) _ (by rw [beq_iff_eq] at hb; omega)

theorem fixedLoop_attempts_le (maxRetries : ℕ)
    (outcomes : List AttemptOutcome) (retry : ℕ) (sleeps : List ℕ)
    (h : retry ≤ maxRetries) :
    (fixedLoop maxRetries retry outcomes sleeps).2.1 ≤ maxRetries + 1 := by
  induction outcomes generalizing retry sleeps with
  | nil => simp only [fixedLoop]; omega
  | cons o rest ih =>
    cases o with
    | success r => simp only [fixedLoop]; omega
    | badResponse =>
      simp only [fixedLoop]
      by_cases hb : (retry == maxRetries) = true
      · rw [if_pos hb]; dsimp only; omega
      · rw [if_neg hb]
        exact ih (retry + 1) _ (by rw [beq_iff_eq] at hb; omega)
    | timeout =>
      simp only [fixedLoop]
      by_cases hb : (retry == maxRetries) = true
      · rw [if_pos hb]; dsimp only; omega
      · rw [if_neg hb]
        exact ih (retry + 1) _ (by rw [beq_iff_eq] at hb; omega)
    | connectionError =>
      simp only [fixedLoop]
      by_cases hb : (retry == maxRetries) = true
      · rw [if_pos hb]; dsimp only; omega
      · rw [if_neg hb]
        exact ih (retry + 1) _ (by rw [beq_iff_eq] at hb; omega)
    | otherError m => simp only [fixedLoop]; omega

theorem qtLoop_timeouts_success (maxRetries : ℕ)
    (r : ClassificationResult) (rest : List AttemptOutcome) :
    ∀ (n retry : ℕ) (sleeps : List ℕ), retry + n = maxRetries →
    qtLoop maxRetries retry
        (List.replicate n .timeout ++ .success r :: rest) sleeps
      = (.returned r, maxRetries + 1,
         sleeps ++ (List.range n).map (fun k => (retry + k + 1) * 2)) := by
  intro n
  induction n with
  | zero =>
    intro retry sleeps hr
    simp only [List.replicate, List.nil_append, qtLoop]
    subst hr
    simp
  | succ n ih =>
    intro retry sleeps hr
    have hrep : List.replicate (n + 1) AttemptOutcome.timeout
        ++ AttemptOutcome.success r :: rest
        = AttemptOutcome.timeout
          :: (List.replicate n AttemptOutcome.timeout
            ++ AttemptOutcome.success r :: rest) := by
      rw [List.replicate_succ, List.cons_append]
    rw [hrep]
    simp only [qtLoop]
    rw [if_neg (by rw [beq_iff_eq]; omega)]
    rw [ih (retry + 1) _ (by omega)]
    refine congrArg _ (congrArg _ ?_)
    rw [List.append_assoc]
    refine congrArg _ ?_
    rw [List.range_succ_eq_map, List.map_cons, List.map_map]
    simp only [List.singleton_append]
    refine congrArg _ ?_
    refine List.map_congr_left ?_
    intro k _
    simp only [Function.comp]
    omega

theorem fixedLoop_timeouts_success (maxRetries : ℕ)
    (r : ClassificationResult) (rest : List AttemptOutcome) :
    ∀ (n retry : ℕ) (sleeps : List ℕ), retry + n = maxRetries →
    fixedLoop maxRetries retry
        (List.replicate n .timeout ++ .success r :: rest) sleeps
      = (.returned r, maxRetries + 1,
         sleeps ++ (List.range n).map (fun k => (retry + k + 1) * 2)) := by
  intro n
  induction n with
  | zero =>
    intro retry sleeps hr
    simp only [List.replicate, List.nil_append, fixedLoop]
    subst hr
    simp
  | succ n ih =>
    intro retry sleeps hr
    have hrep : List.replicate (n + 1) AttemptOutcome.timeout
        ++ AttemptOutcome.success r :: rest
        = AttemptOutcome.timeout
          :: (List.replicate n AttemptOutcome.timeout
            ++ AttemptOutcome.success r :: rest) := by
      rw [List.replicate_succ, List.cons_append]
    rw [hrep]
    simp only [fixedLoop]
    rw [if_neg (by rw [beq_iff_eq]; omega)]
    rw [ih (retry + 1) _ (by omega)]
    refine congrArg _ (congrArg _ ?_)
    rw [List.append_assoc]
    refine congrArg _ ?_
    rw [List.range_succ_eq_map, List.map_cons, List.map_map]
    simp only [List.singleton_append]
    refine congrArg _ ?_
    refine List.map_congr_left ?_
    intro k _
    simp only [Function.comp]
    omega

theorem qtLoop_no_success (maxRetries : ℕ) (outcomes : List AttemptOutcome)
    (hall : outcomes.all (fun o => !(o.isSuccess)) = true) :
    ∀ (retry : ℕ) (sleeps : List ℕ),
      (qtLoop maxRetries retry outcomes sleeps).1 = .fellThrough := by
  induction outcomes with
  | nil => intro retry sleeps; rfl
  | cons o rest ih =>
    rw [List.all_cons, Bool.and_eq_true] at hall
    obtain ⟨hhd, htl⟩ := hall
    intro retry sleeps
    cases o with
    | success r => simp [AttemptOutcome.isSuccess] at hhd
    | badResponse =>
      simp only [qtLoop]
      split
      · rfl
      · exact ih htl _ _
    | timeout =>
      simp only [qtLoop]
      split
      · rfl
      · exact ih htl _ _
    | connectionError =>
      simp only [qtLoop]
      split
      · rfl
      · exact ih htl _ _
    | otherError m =>
      simp only [qtLoop]
      split
      · rfl
      · exact ih htl _ _

theorem fixedLoop_no_returned (maxRetries : ℕ)
    (outcomes : List AttemptOutcome)
    (hall : outcomes.all (fun o => !(o.isSuccess)) = true) :
    ∀ (retry : ℕ) (sleeps : List ℕ) (r : ClassificationResult),
      (fixedLoop maxRetries retry outcomes sleeps).1
        ≠ LoopExit.returned r := by
  induction outcomes with
  | nil => intro retry sleeps r h; cases h
  | cons o rest ih =>
    rw [List.all_cons, Bool.and_eq_true] at hall
    obtain ⟨hhd, htl⟩ := hall
    intro retry sleeps r
    cases o with
    | success s => simp [AttemptOutcome.isSuccess] at hhd
    | badResponse =>
      simp only [fixedLoop]
      split
      · intro h; cases h
      · exact ih htl _ _ r
    | timeout =>
      simp only [fixedLoop]
      split
      · intro h; cases h
      · exact ih htl _ _ r
    | connectionError =>
      simp only [fixedLoop]
      split
      · intro h; cases h
      · exact ih htl _ _ r
    | otherError m =>
      intro h; cases h

theorem fixedLoop_badResponses (maxRetries : ℕ) :
    ∀ (n retry : ℕ) (sleeps : List ℕ),
      (fixedLoop maxRetries retry
        (List.replicate n .badResponse) sleeps).1 = .fellThrough := by
  intro n
  induction n with
  | zero => intro retry sleeps; rfl
  | succ n ih =>
    intro retry sleeps
    rw [List.replicate_succ]
    simp only [fixedLoop]
    split
    · rfl
    · exact ih _ _

theorem fixedLoop_timeouts_exhaust (maxRetries : ℕ) :
    ∀ (n retry : ℕ) (sleeps : List ℕ),
      retry + n = maxRetries + 1 → 1 ≤ n →
      (fixedLoop maxRetries retry
        (List.replicate n .timeout) sleeps).1 = .raised "timeout" := by
  intro n
  induction n with
  | zero => intro retry sleeps _ h; cases h
  | succ n ih =>
    intro retry sleeps hsum _
    rw [List.replicate_succ]
    simp only [fixedLoop]
    by_cases hb : (retry == maxRetries) = true
    · rw [if_pos hb]
    · rw [if_neg hb]
      rw [beq_iff_eq] at hb
      exact ih (retry + 1) _ (by omega) (by omega)

theorem qtClassify_loop_attempts (maxRetries : ℕ) (preview : String)
    (outcomes : List AttemptOutcome)
    (hne : ¬ (pyStrip preview).length = 0) :
    (qtClassify maxRetries preview outcomes).attempts
      = (qtLoop maxRetries 0 outcomes []).2.1 := by
  unfold qtClassify
  rw [if_neg (by simp [hne])]
  rcases hl : qtLoop maxRetries 0 outcomes [] with ⟨e, a, s⟩
  cases e <;> simp [hl]

theorem fixedClassify_loop_attempts (maxRetries : ℕ) (preview : String)
    (outcomes : List AttemptOutcome)
    (hne : ¬ (pyStrip preview).length = 0) :
    (fixedClassify maxRetries preview outcomes).attempts
      = (fixedLoop maxRetries 0 outcomes []).2.1 := by
  unfold fixedClassify
  rw [if_neg (by simp [hne])]
  rcases hl : fixedLoop maxRetries 0 outcomes [] with ⟨e, a, s⟩
  cases e <;> simp [hl]

/-- Counterexample to C3 as stated: in the qt variant a ConnectionError
lands in the generic exception handler, which waits retry + 1 rather
than (retry + 1) * 2 — the wait before retry attempt 1 is 1 time unit,
not 1 * 2. -/
theorem retry_backoff_counterexample :
    (qtClassify 2 "x"
      [.connectionError, .success ⟨"Doc", "s", ["k"]⟩]).sleeps = [1]
    ∧ ¬ (1 : ℕ) = 1 * 2 :=
  ⟨by decide, by decide⟩

/-- C3 amended: every call makes at most maxRetries+1 attempts; a call
whose first maxRetries attempts time out and whose final attempt succeeds
returns the parsed record with backoff wait k*2 before retry attempt k,
in both variants; but the qt variant waits only k before retry attempt k
after a non-Timeout exception such as a ConnectionError. -/
theorem retry_policy_amended :
    (∀ (maxRetries : ℕ) (preview : String)
        (outcomes : List AttemptOutcome),
      (qtClassify maxRetries preview outcomes).attempts ≤ maxRetries + 1
      ∧ (fixedClassify maxRetries preview outcomes).attempts
          ≤ maxRetries + 1)
    ∧ (∀ (maxRetries : ℕ) (preview : String) (r : ClassificationResult)
        (rest : List AttemptOutcome),
      ¬ (pyStrip preview).length = 0 →
      qtClassify maxRetries preview
          (List.replicate maxRetries .timeout ++ .success r :: rest)
        = ⟨r, maxRetries + 1,
            (List.range maxRetries).map (fun k => (k + 1) * 2)⟩
      ∧ fixedClassify maxRetries preview
          (List.replicate maxRetries .timeout ++ .success r :: rest)
        = ⟨r, maxRetries + 1,
            (List.range maxRetries).map (fun k => (k + 1) * 2)⟩)
    ∧ (∀ (maxRetries : ℕ) (preview : String) (r : ClassificationResult)
        (rest : List AttemptOutcome),
      ¬ (pyStrip preview).length = 0 → 1 ≤ maxRetries →
      (qtClassify maxRetries preview
        (.connectionError :: .success r :: rest)).sleeps = [1]) := by
  refine ⟨?_, ?_, ?_⟩
  · intro maxRetries preview outcomes
    by_cases hne : (pyStrip preview).length = 0
    · constructor
      · unfold qtClassify
        rw [if_pos (by simp [hne])]
        dsimp only
        omega
      · unfold fixedClassify
        rw [if_pos (by simp [hne])]
        dsimp only
        omega
    · constructor
      · rw [qtClassify_loop_attempts maxRetries preview outcomes hne]
        exact qtLoop_attempts_le maxRetries outcomes 0 [] (Nat.zero_le _)
      · rw [fixedClassify_loop_attempts maxRetries preview outcomes hne]
        exact fixedLoop_attempts_le maxRetries outcomes 0 [] (Nat.zero_le _)
  · intro maxRetries preview r rest hne
    have hq := qtLoop_timeouts_success maxRetries r rest maxRetries 0 []
      (by omega)
    have hf := fixedLoop_timeouts_success maxRetries r rest maxRetries 0 []
      (by omega)
    constructor
    · unfold qtClassify
      rw [if_neg (by simp [hne]), hq]
      simp only [List.nil_append, Nat.zero_add]
    · unfold fixedClassify
      rw [if_neg (by simp [hne]), hf]
      simp only [List.nil_append, Nat.zero_add]
  · intro maxRetries preview r rest hne hmr
    have hloop : qtLoop maxRetries 0
        (.connectionError :: .success r :: rest) [] = (.returned r, 2, [1]) := by
      simp only [qtLoop]
      rw [if_neg (by rw [beq_iff_eq]; omega)]
      simp [qtLoop]
    unfold qtClassify
    rw [if_neg (by simp [hne]), hloop]

/-- Reply fixture for the retry witnesses. -/
def okReply : ClassificationResult := ⟨"Doc", "s", ["k"]⟩

/-- Witness for the amended C3 at maxRetries = 2: the attempt bound, the
timeout-timeout-success trace returning the parsed reply with sleeps
[2, 4], and the qt ConnectionError wait of 1. -/
theorem retry_policy_amended_witness :
    ¬ (pyStrip "x").length = 0
    ∧ (qtClassify 2 "x" [.timeout, .timeout, .success okReply]).attempts
        ≤ 2 + 1
    ∧ qtClassify 2 "x"
        (List.replicate 2 .timeout ++ .success okReply :: [])
        = ⟨okReply, 2 + 1, (List.range 2).map (fun k => (k + 1) * 2)⟩
    ∧ (qtClassify 2 "x" (.connectionError :: .success okReply :: [])).sleeps
        = [1] :=
  ⟨by decide,
    (retry_policy_amended.1 2 "x" [.timeout, .timeout, .success okReply]).1,
    (retry_policy_amended.2.1 2 "x" okReply [] (by decide)).1,
    retry_policy_amended.2.2 2 "x" okReply [] (by decide) (by decide)⟩

/-- Counterexample to C4 as stated: in the run_file variant a call whose
maxRetries+1 attempts all time out re-raises on the last attempt, and the
outer handler returns classification Error — not the Unknown the claim
requires for a structured Timeout failure. -/
theorem fallback_classification_counterexample :
    (fixedClassify 2 "x"
        [.timeout, .timeout, .timeout]).result.classification = "Error"
    ∧ (fixedClassify 2 "x" [.timeout, .timeout, .timeout]).attempts = 2 + 1
    ∧ ¬ ("Error" : String) = "Unknown" :=
  ⟨by decide, by decide, by decide⟩

/-- C4 amended: after exhaustion no exception reaches the caller and the
fallback record always carries the error keyword; the qt variant labels
every exhausted call Unknown (even after unexpected exceptions), while
the run_file variant labels parse/status exhaustion Unknown and labels
Timeout, ConnectionError and unexpected exceptions Error. -/
theorem fallback_after_exhaustion_amended :
    (∀ (maxRetries : ℕ) (preview : String)
        (outcomes : List AttemptOutcome),
      ¬ (pyStrip preview).length = 0 →
      outcomes.all (fun o => !(o.isSuccess)) = true →
      (qtClassify maxRetries preview outcomes).result = qtFallback
      ∧ (qtClassify maxRetries preview
          outcomes).result.classification = "Unknown"
      ∧ "error" ∈ (qtClassify maxRetries preview outcomes).result.keywords)
    ∧ (∀ (maxRetries : ℕ) (preview : String)
        (outcomes : List AttemptOutcome),
      ¬ (pyStrip preview).length = 0 →
      outcomes.all (fun o => !(o.isSuccess)) = true →
      ((fixedClassify maxRetries preview
          outcomes).result.classification = "Unknown"
        ∨ (fixedClassify maxRetries preview
          outcomes).result.classification = "Error")
      ∧ "error" ∈ (fixedClassify maxRetries preview
          outcomes).result.keywords)
    ∧ (∀ (maxRetries : ℕ) (preview : String),
      ¬ (pyStrip preview).length = 0 →
      (fixedClassify maxRetries preview
        (List.replicate (maxRetries + 1)
          .badResponse)).result.classification = "Unknown"
      ∧ (fixedClassify maxRetries preview
        (List.replicate (maxRetries + 1)
          .timeout)).result.classification = "Error") := by
  refine ⟨?_, ?_, ?_⟩
  · intro maxRetries preview outcomes hne hall
    have hexit := qtLoop_no_success maxRetries outcomes hall 0 []
    unfold qtClassify
    rw [if_neg (by simp [hne])]
    rcases hl : qtLoop maxRetries 0 outcomes [] with ⟨e, a, s⟩
    rw [hl] at hexit
    cases e with
    | returned r => cases hexit
    | fellThrough => exact ⟨rfl, rfl, by simp [qtFallback]⟩
    | raised m => cases hexit
  · intro maxRetries preview outcomes hne hall
    have hexit := fixedLoop_no_returned maxRetries outcomes hall 0 []
    unfold fixedClassify
    rw [if_neg (by simp [hne])]
    rcases hl : fixedLoop maxRetries 0 outcomes [] with ⟨e, a, s⟩
    cases e with
    | returned r =>
      have := hexit r
      rw [hl] at this
      cases this rfl
    | fellThrough => exact ⟨Or.inl rfl, by simp [fixedFallback]⟩
    | raised m => exact ⟨Or.inr rfl, by simp [errorFallback]⟩
  · intro maxRetries preview hne
    constructor
    · have hexit := fixedLoop_badResponses maxRetries (maxRetries + 1) 0 []
      unfold fixedClassify
      rw [if_neg (by simp [hne])]
      rcases hl : fixedLoop maxRetries 0
          (List.replicate (maxRetries + 1) .badResponse) [] with ⟨e, a, s⟩
      rw [hl] at hexit
      cases e with
      | returned r => cases hexit
      | fellThrough => rfl
      | raised m => cases hexit
    · have hexit := fixedLoop_timeouts_exhaust maxRetries (maxRetries + 1)
        0 [] (by omega) (by omega)
      unfold fixedClassify
      rw [if_neg (by simp [hne])]
      rcases hl : fixedLoop maxRetries 0
          (List.replicate (maxRetries + 1) .timeout) [] with ⟨e, a, s⟩
      rw [hl] at hexit
      cases e with
      | returned r => cases hexit
      | fellThrough => cases hexit
      | raised m => rfl

/-- Witness for the amended C4 at maxRetries = 2 on an all-failure trace
and on the two uniform exhaustion traces. -/
theorem fallback_after_exhaustion_amended_witness :
    ¬ (pyStrip "x").length = 0
    ∧ ([AttemptOutcome.timeout, .badResponse, .connectionError].all
        (fun o => !(o.isSuccess)) = true)
    ∧ (qtClassify 2 "x"
        [.timeout, .badResponse, .connectionError]).result = qtFallback
    ∧ ((fixedClassify 2 "x"
        [.timeout, .badResponse, .connectionError]).result.classification
          = "Unknown"
      ∨ (fixedClassify 2 "x"
        [.timeout, .badResponse, .connectionError]).result.classification
          = "Error")
    ∧ (fixedClassify 2 "x"
        (List.replicate (2 + 1) .badResponse)).result.classification
        = "Unknown"
    ∧ (fixedClassify 2 "x"
        (List.replicate (2 + 1) .timeout)).result.classification
        = "Error" :=
  ⟨by decide, by decide,
    (fallback_after_exhaustion_amended.1 2 "x"
      [.timeout, .badResponse, .connectionError] (by decide) (by decide)).1,
    (fallback_after_exhaustion_amended.2.1 2 "x"
      [.timeout, .badResponse, .connectionError] (by decide) (by decide)).1,
    (fallback_after_exhaustion_amended.2.2 2 "x" (by decide)).1,
    (fallback_after_exhaustion_amended.2.2 2 "x" (by decide)).2⟩

/-- C10: a call whose content preview is empty or whitespace-only returns
the Unknown / Empty or unreadable file / no-keywords record immediately,
with zero network attempts and zero backoff waits, in all three
classifier variants. -/
theorem empty_preview_short_circuit (preview : String)
    (h : (pyStrip preview).length = 0) :
    (∀ (maxRetries : ℕ) (outcomes : List AttemptOutcome),
      qtClassify maxRetries preview outcomes
        = ⟨emptyPreviewRecord, 0, []⟩)
    ∧ (∀ (maxRetries : ℕ) (outcomes : List AttemptOutcome),
      fixedClassify maxRetries preview outcomes
        = ⟨emptyPreviewRecord, 0, []⟩)
    ∧ (∀ outcome, basicClassify preview outcome
        = ⟨emptyPreviewRecord, 0, []⟩) := by
  refine ⟨?_, ?_, ?_⟩
  · intro maxRetries outcomes
    unfold qtClassify
    rw [if_pos (by simp [h])]
  · intro maxRetries outcomes
    unfold fixedClassify
    rw [if_pos (by simp [h])]
  · intro outcome
    unfold basicClassify
    rw [if_pos (by simp [h])]

/-- Witness for C10 at the three-space preview: stripping leaves the
empty string and the guard record comes back untouched by the timeout
trace. -/
theorem empty_preview_short_circuit_witness :
    (pyStrip "   ").length = 0
    ∧ qtClassify 2 "   " [.timeout, .timeout, .timeout]
        = ⟨emptyPreviewRecord, 0, []⟩
    ∧ basicClassify "   " .timeout = ⟨emptyPreviewRecord, 0, []⟩ :=
  ⟨by decide,
    (empty_preview_short_circuit "   " (by decide)).1 2
      [.timeout, .timeout, .timeout],
    (empty_preview_short_circuit "   " (by decide)).2.2 .timeout⟩

/-! ## Sentinel broadcast (parallel_scanner.py and simple_unified_app.py) -/

/-- The sentinel broadcast of parallel_scan_files in parallel_scanner.py:
one put(None, timeout=1) per worker; a put that still finds the bounded
queue full raises queue.Full, which the except clause swallows, dropping
that sentinel. Modelled under the schedule in which no worker dequeues
during the broadcast, so a put succeeds exactly when the queue holds
fewer than maxsize entries. -/
def putSentinels {α : Type} (maxsize : ℕ) :
    ℕ → List (Option α) → List (Option α)
  | 0, q => q
  | n + 1, q =>
    if q.length < maxsize then putSentinels maxsize n (q ++ [none])
    else putSentinels maxsize n q

/-- The sentinel broadcast of parallel_scan_files in
simple_unified_app.py: file_queue.put(None) without a timeout blocks
until space frees, so every sentinel is eventually enqueued. -/
def putSentinelsBlocking {α : Type} : ℕ → List (Option α) → List (Option α)
  | 0, q => q
  | n + 1, q => putSentinelsBlocking n (q ++ [none])

/-- Number of sentinels currently in the queue. -/
def sentinelCount {α : Type} (q : List (Option α)) : ℕ :=
  q.countP (fun x => x.isNone)

theorem sentinelCount_append_none {α : Type} (q : List (Option α)) :
    sentinelCount (q ++ [none]) = sentinelCount q + 1 := by
  simp [sentinelCount, List.countP_append]

/-- Counterexample to C7 as stated: with the queue still full (100
entries, its configured capacity) and no worker draining it within the
timeout, all 8 sentinel puts hit queue.Full and are dropped — zero
sentinels are enqueued, not one per worker. -/
theorem sentinel_broadcast_counterexample :
    putSentinels 100 8 (List.replicate 100 (some (0 : ℕ)))
      = List.replicate 100 (some 0)
    ∧ sentinelCount (putSentinels 100 8 (List.replicate 100 (some (0 : ℕ))))
      = 0
    ∧ ¬ (0 : ℕ) = 8 :=
  ⟨by decide, by decide, by decide⟩

/-- C7 amended: the parallel_scanner producer attempts one sentinel per
worker but drops each attempt that still finds the queue full, so it
enqueues min(numWorkers, free slots) sentinels — exactly one per worker
only when the queue has room for all of them; the simple_unified_app
variant blocks on each put and always enqueues exactly one per worker. -/
theorem sentinel_broadcast_amended (α : Type) :
    (∀ (maxsize n : ℕ) (q : List (Option α)),
      sentinelCount (putSentinels maxsize n q)
        = sentinelCount q + min n (maxsize - q.length))
    ∧ (∀ (maxsize n : ℕ) (q : List (Option α)),
      q.length + n ≤ maxsize →
      putSentinels maxsize n q = q ++ List.replicate n none)
    ∧ (∀ (n : ℕ) (q : List (Option α)),
      putSentinelsBlocking n q = q ++ List.replicate n none) := by
  refine ⟨?_, ?_, ?_⟩
  · intro maxsize n
    induction n with
    | zero => intro q; simp [putSentinels]
    | succ n ih =>
      intro q
      simp only [putSentinels]
      by_cases hlen : q.length < maxsize
      · rw [if_pos hlen, ih (q ++ [none]), sentinelCount_append_none]
        rw [List.length_append]
        simp only [List.length_singleton]
        omega
      · rw [if_neg hlen, ih q]
        omega
  · intro maxsize n
    induction n with
    | zero => intro q _; simp [putSentinels]
    | succ n ih =>
      intro q hroom
      simp only [putSentinels]
      rw [if_pos (by omega)]
      rw [ih (q ++ [none]) (by rw [List.length_append]; simp; omega)]
      rw [List.append_assoc, List.replicate_succ]
      rfl
  · intro n
    induction n with
    | zero => intro q; simp [putSentinelsBlocking]
    | succ n ih =>
      intro q
      simp only [putSentinelsBlocking]
      rw [ih (q ++ [none]), List.append_assoc, List.replicate_succ]
      rfl

/-- Witness for the amended C7: with 90 entries and capacity 100 all 8
sentinels land; with a full queue the count formula gives zero. -/
theorem sentinel_broadcast_amended_witness :
    (List.replicate 90 (some (0 : ℕ))).length + 8 ≤ 100
    ∧ putSentinels 100 8 (List.replicate 90 (some (0 : ℕ)))
        = List.replicate 90 (some 0) ++ List.replicate 8 none
    ∧ sentinelCount (putSentinels 100 8 (List.replicate 100 (some (0 : ℕ))))
        = sentinelCount (List.replicate 100 (some (0 : ℕ)))
          + min 8 (100 - (List.replicate 100 (some (0 : ℕ))).length)
    ∧ putSentinelsBlocking 8 (List.replicate 100 (some (0 : ℕ)))
        = List.replicate 100 (some 0) ++ List.replicate 8 none :=
  ⟨by decide,
    (sentinel_broadcast_amended ℕ).2.1 100 8
      (List.replicate 90 (some 0)) (by decide),
    (sentinel_broadcast_amended ℕ).1 100 8 (List.replicate 100 (some 0)),
    (sentinel_broadcast_amended ℕ).2.2 8 (List.replicate 100 (some 0))⟩
